import Mathlib

/-!
Verification development for the miner-tauri-gui process supervisor
(src-tauri/src: miner.rs, parse.rs).  Rust code is shallowly embedded:
strings are modelled as Lean strings or lists of characters, u32/u64
parsing carries the explicit overflow bound, f64 literals produced by
parsing simple decimal strings are modelled exactly as rationals, and
the stateful supervisor is modelled as explicit state passing.
-/

namespace MinerTauri

/-! ## Basic character and list helpers -/

/-- Numeric value of a list of decimal digit characters (most significant first). -/
def digitsToNat (cs : List Char) : Nat :=
  cs.foldl (fun a c => a * 10 + (c.toNat - ('0').toNat)) 0

/-- Model of Rust str::trim - drop leading and trailing whitespace characters. -/
def trimChars (cs : List Char) : List Char :=
  ((cs.dropWhile Char.isWhitespace).reverse.dropWhile Char.isWhitespace).reverse

/-- ASCII lowercase of one character; models Rust char lowercasing on the
ASCII range (the only range the matching patterns use). -/
def lowerChar (c : Char) : Char :=
  if (('A') ≤ c) && (c ≤ ('Z')) then Char.ofNat (c.toNat + 32) else c

/-- Model of str::to_lowercase as a character-wise map. -/
def lowerList (cs : List Char) : List Char := cs.map lowerChar

/-- Does pat occur as a contiguous sublist of hay?  Models str::contains. -/
def containsSub (hay pat : List Char) : Bool :=
  match hay with
  | [] => pat.isEmpty
  | _ :: t => pat.isPrefixOf hay || containsSub t pat

/-- Index of the first occurrence of pat in hay, as a character offset.
Models str::find (byte offsets coincide with character offsets on ASCII input). -/
def findSubIdx (hay pat : List Char) : Option Nat :=
  match hay with
  | [] => if pat.isEmpty then some 0 else none
  | _ :: t =>
    if pat.isPrefixOf hay then some 0
    else (findSubIdx t pat).map (· + 1)

/-- Model of u64::from_str on an all-digit string: fails when empty,
when a non-digit is present, or on overflow past 2^64 - 1. -/
def parseU64digits (cs : List Char) : Option Nat :=
  if cs ≠ [] ∧ cs.all Char.isDigit ∧ digitsToNat cs < 2 ^ 64 then
    some (digitsToNat cs)
  else none

/-- Model of u32::from_str: optional leading plus sign, then digits,
value below 2^32. -/
def parseU32chars (cs : List Char) : Option Nat :=
  let ds := match cs with
    | '+' :: t => t
    | _ => cs
  if ds ≠ [] ∧ ds.all Char.isDigit ∧ digitsToNat ds < 2 ^ 32 then
    some (digitsToNat ds)
  else none

/-- Model of f64::from_str restricted to strings over digits and dots
(the only strings the hashrate regex can capture): succeeds when there is
at least one digit and at most one dot.  The value is represented exactly
as a rational; f64 rounding of very long captures is out of scope. -/
def parseDecimal (cs : List Char) : Option ℚ :=
  if cs.any Char.isDigit ∧ cs.all (fun c => c.isDigit || c == '.')
      ∧ (cs.filter (fun c => c == '.')).length ≤ 1 then
    let intPart := cs.takeWhile (fun c => c ≠ '.')
    let fracPart := (cs.dropWhile (fun c => c ≠ '.')).drop 1
    some (mkRat (digitsToNat (intPart ++ fracPart)) (10 ^ fracPart.length))
  else none

/-! ## parse.rs : the log line parser -/

/-- MinerEvent from parse.rs.  The hps field of Hashrate is the exact
rational value of the captured decimal string. -/
inductive MinerEvent
  | Connected
  | Hashrate (hps : ℚ)
  | ShareAccepted
  | FoundBlock (height : Option Nat) (hash : Option String)
  | Error (message : String)
deriving DecidableEq

/-- Regex character class for whitespace in the hashrate patterns. -/
def isWsChar (c : Char) : Bool := c.isWhitespace

/-- Regex character class for digits and dots. -/
def isDigitDot (c : Char) : Bool := c.isDigit || c == '.'

/-- Attempt the tail of regex RE1 (after the literal "hashrate"):
a colon or equals sign, optional whitespace, a nonempty run of digits
and dots (the capture), optional whitespace, then h/s or hs. -/
def re1After (l : List Char) : Option (List Char) :=
  match l with
  | [] => none
  | c :: rest =>
    if c == ':' || c == '=' then
      let r1 := rest.dropWhile isWsChar
      let ds := r1.takeWhile isDigitDot
      if ds.isEmpty then none
      else
        let r2 := (r1.drop ds.length).dropWhile isWsChar
        match r2 with
        | 'h' :: '/' :: 's' :: _ => some ds
        | 'h' :: 's' :: _ => some ds
        | _ => none
    else none

/-- Leftmost match of RE1, hashrate[:=]\s*([\d.]+)\s*h/?s, returning the capture. -/
def re1Scan (l : List Char) : Option (List Char) :=
  match l with
  | [] => none
  | _ :: t =>
    match (if (("hashrate").data).isPrefixOf l then re1After (l.drop 8) else none) with
    | some ds => some ds
    | none => re1Scan t

/-- Tail of regex RE2 after h/?s: optional whitespace, optional equals sign,
optional whitespace, a nonempty capture of digits and dots. -/
def re2Tail (rest : List Char) : Option (List Char) :=
  let r1 := rest.dropWhile isWsChar
  let r2 := match r1 with
    | '=' :: t => t
    | _ => r1
  let r3 := r2.dropWhile isWsChar
  let ds := r3.takeWhile isDigitDot
  if ds.isEmpty then none else some ds

/-- Attempt RE2 at one position: h, optional slash, s, then the tail. -/
def re2At (l : List Char) : Option (List Char) :=
  match l with
  | 'h' :: '/' :: 's' :: rest => re2Tail rest
  | 'h' :: 's' :: rest => re2Tail rest
  | _ => none

/-- Leftmost match of RE2, h/?s\s*=?\s*([\d.]+), returning the capture. -/
def re2Scan (l : List Char) : Option (List Char) :=
  match l with
  | [] => none
  | _ :: t =>
    match re2At l with
    | some ds => some ds
    | none => re2Scan t

/-- parse_hashrate from parse.rs: try RE1 then RE2 on the lowercased line;
if a capture is found, parse it as a float; a capture that fails to parse
yields no event (RE2 is not retried after an RE1 match). -/
def parse_hashrate (l : List Char) : Option MinerEvent :=
  match (re1Scan l).orElse (fun _ => re2Scan l) with
  | some ds =>
    match parseDecimal ds with
    | some v => some (MinerEvent.Hashrate v)
    | none => none
  | none => none

/-- Regex character class for the separators in the height and hash patterns. -/
def isSepChar (c : Char) : Bool := c == ' ' || c == '=' || c == ':'

/-- Attempt the height pattern at one position: the literal "height", one or
more separators, then the digit capture. -/
def heightMatchAt (l : List Char) : Option (List Char) :=
  if (("height").data).isPrefixOf l then
    let r := l.drop 6
    let seps := r.takeWhile isSepChar
    if seps.isEmpty then none
    else
      let ds := (r.drop seps.length).takeWhile Char.isDigit
      if ds.isEmpty then none else some ds
  else none

/-- Leftmost match of height[ =:]+(\d+), returning the digit capture. -/
def heightScan (l : List Char) : Option (List Char) :=
  match l with
  | [] => none
  | _ :: t =>
    match heightMatchAt l with
    | some ds => some ds
    | none => heightScan t

/-- capture_u64 from parse.rs applied to the height pattern: leftmost match,
then u64 parse of the capture. -/
def height_capture (l : List Char) : Option Nat :=
  match heightScan l with
  | some ds => parseU64digits ds
  | none => none

/-- Regex character class [0-9a-fx] from the hash pattern. -/
def isHashChar (c : Char) : Bool :=
  c.isDigit || (('a' ≤ c) && (c ≤ 'f')) || c == 'x'

/-- Attempt the hash pattern at one position with one keyword. -/
def hashKeyAt (k l : List Char) : Option (List Char) :=
  if k.isPrefixOf l then
    let r := l.drop k.length
    let seps := r.takeWhile isSepChar
    if seps.isEmpty then none
    else
      let ds := (r.drop seps.length).takeWhile isHashChar
      if ds.isEmpty then none else some ds
  else none

/-- Attempt (?:hash|block)[ =:]+([0-9a-fx]+) at one position. -/
def hashMatchAt (l : List Char) : Option (List Char) :=
  match hashKeyAt (("hash").data) l with
  | some ds => some ds
  | none => hashKeyAt (("block").data) l

/-- Leftmost match of the hash pattern, returning the capture. -/
def hashScan (l : List Char) : Option (List Char) :=
  match l with
  | [] => none
  | _ :: t =>
    match hashMatchAt l with
    | some ds => some ds
    | none => hashScan t

/-- capture_str from parse.rs applied to the hash pattern. -/
def hash_capture (l : List Char) : Option String :=
  (hashScan l).map String.mk

/-- parse_event from parse.rs: lowercase the line, then apply the rules in
source order, first match wins. -/
def parse_event (line : String) : Option MinerEvent :=
  let l := lowerList line.data
  if containsSub l (("connected to").data) || containsSub l (("syncing").data) then
    some MinerEvent.Connected
  else
    match parse_hashrate l with
    | some ev => some ev
    | none =>
      if containsSub l (("share accepted").data) || containsSub l (("accepted share").data) then
        some MinerEvent.ShareAccepted
      else if containsSub l (("found block").data) || containsSub l (("contributed block").data)
          || containsSub l (("mined block").data) then
        some (MinerEvent.FoundBlock (height_capture l) (hash_capture l))
      else if containsSub l (("error").data) || containsSub l (("failed").data) then
        some (MinerEvent.Error (String.mk (trimChars line.data)))
      else none

/-! Spec-side ordered rule table for the parser (written from the words of
the spec: a fixed ordered rule set, first matching rule wins). -/

/-- Connectivity rule of the spec rule table. -/
def connectivity_rule (line : String) : Option MinerEvent :=
  let l := lowerList line.data
  if containsSub l (("connected to").data) || containsSub l (("syncing").data) then
    some MinerEvent.Connected
  else none

/-- Hashrate rule of the spec rule table. -/
def hashrate_rule (line : String) : Option MinerEvent :=
  parse_hashrate (lowerList line.data)

/-- Share-accepted rule of the spec rule table. -/
def share_accepted_rule (line : String) : Option MinerEvent :=
  let l := lowerList line.data
  if containsSub l (("share accepted").data) || containsSub l (("accepted share").data) then
    some MinerEvent.ShareAccepted
  else none

/-- Block-found rule of the spec rule table. -/
def block_found_rule (line : String) : Option MinerEvent :=
  let l := lowerList line.data
  if containsSub l (("found block").data) || containsSub l (("contributed block").data)
      || containsSub l (("mined block").data) then
    some (MinerEvent.FoundBlock (height_capture l) (hash_capture l))
  else none

/-- Error rule of the spec rule table. -/
def error_rule (line : String) : Option MinerEvent :=
  let l := lowerList line.data
  if containsSub l (("error").data) || containsSub l (("failed").data) then
    some (MinerEvent.Error (String.mk (trimChars line.data)))
  else none

/-- First-match-wins evaluation of an ordered rule table. -/
def firstMatch (rules : List (String → Option MinerEvent)) (line : String) :
    Option MinerEvent :=
  match rules with
  | [] => none
  | r :: rs =>
    match r line with
    | some e => some e
    | none => firstMatch rs line

/-- The parser rule table in the priority order of the spec. -/
def specRules : List (String → Option MinerEvent) :=
  [connectivity_rule, hashrate_rule, share_accepted_rule, block_found_rule, error_rule]

/-! ## miner.rs : the metadata extractor -/

/-- MinerMeta from miner.rs: all fields optional, created Default (all none). -/
structure MinerMeta where
  binary : Option String := none
  chain : Option String := none
  rewards_address : Option String := none
  version : Option String := none
  chain_spec : Option String := none
  node_name : Option String := none
  role : Option String := none
  database : Option String := none
  local_identity : Option String := none
  jsonrpc_addr : Option String := none
  prometheus_addr : Option String := none
  highest_known_block : Option Nat := none
  os : Option String := none
  arch : Option String := none
  target : Option String := none
  cpu : Option String := none
  cpu_cores : Option Nat := none
  memory : Option String := none
  kernel : Option String := none
  distro : Option String := none
  vm : Option String := none
deriving DecidableEq

/-- The text after the first occurrence of marker: search in the first list
(the lowercased line for case-insensitive rules, the line itself otherwise),
slice the second list at the same character offset, trim the remainder.
Models the find-slice-trim shape shared by the extraction rules. -/
def afterMarker (search orig marker : List Char) : Option (List Char) :=
  (findSubIdx search marker).map (fun ix => trimChars (orig.drop (ix + marker.length)))

/-- One string extraction step: set the field to the trimmed remainder when
the marker matched and the remainder is nonempty; report whether the stored
value changed.  Models the set closure of update_meta_from_line. -/
def stepStr (dst : Option String) (r : Option (List Char)) : Option String × Bool :=
  match r with
  | none => (dst, false)
  | some v =>
    if v = [] then (dst, false)
    else if dst = some (String.mk v) then (dst, false)
    else (some (String.mk v), true)

/-- One numeric extraction step: set the field when the capture parsed. -/
def stepNat (dst : Option Nat) (r : Option Nat) : Option Nat × Bool :=
  match r with
  | none => (dst, false)
  | some n => if dst = some n then (dst, false) else (some n, true)

/-- The digit run following the marker, parsed as u64.
Models the highest-known-block rule, which searches and slices the
lowercased line. -/
def highest_block_capture (low : List Char) : Option Nat :=
  match findSubIdx low (("highest known block at #").data) with
  | some ix =>
    parseU64digits ((low.drop (ix + (("highest known block at #").data).length)).takeWhile
      Char.isDigit)
  | none => none

/-- The trimmed remainder after the CPU-cores marker, parsed as u32. -/
def cpu_cores_capture (line : List Char) : Option Nat :=
  match afterMarker line line (("CPU cores:").data) with
  | some v => parseU32chars v
  | none => none

/-- update_meta_from_line from miner.rs: apply every extraction rule in
source order to one line, returning the updated record and whether any
field changed.  The version and highest-known-block rules search the
lowercased line; all other rules are case sensitive. -/
def update_meta_from_line (meta : MinerMeta) (line : String) : MinerMeta × Bool :=
  let cs := line.data
  let low := lowerList cs
  let pVersion := stepStr meta.version (afterMarker low cs (("version ").data))
  let pChainSpec := stepStr meta.chain_spec (afterMarker cs cs (("Chain specification:").data))
  let pNodeName := stepStr meta.node_name (afterMarker cs cs (("Node name:").data))
  let pRole := stepStr meta.role (afterMarker cs cs (("Role:").data))
  let pDatabase := stepStr meta.database (afterMarker cs cs (("Database: RocksDb at").data))
  let pLocalIdentity :=
    stepStr meta.local_identity (afterMarker cs cs (("Local node identity is:").data))
  let pJsonrpc :=
    stepStr meta.jsonrpc_addr (afterMarker cs cs (("Running JSON-RPC server: addr=").data))
  let pPrometheus :=
    stepStr meta.prometheus_addr (afterMarker cs cs (("Prometheus exporter started at").data))
  let pRewards :=
    stepStr meta.rewards_address (afterMarker cs cs (("Using provided rewards address:").data))
  let pHighest := stepNat meta.highest_known_block (highest_block_capture low)
  let pOs := stepStr meta.os (afterMarker cs cs (("Operating system:").data))
  let pArch := stepStr meta.arch (afterMarker cs cs (("CPU architecture:").data))
  let pTarget := stepStr meta.target (afterMarker cs cs (("Target environment:").data))
  let pCpu := stepStr meta.cpu (afterMarker cs cs (("CPU:").data))
  let pMemory := stepStr meta.memory (afterMarker cs cs (("Memory:").data))
  let pKernel := stepStr meta.kernel (afterMarker cs cs (("Kernel:").data))
  let pDistro := stepStr meta.distro (afterMarker cs cs (("Linux distribution:").data))
  let pVm := stepStr meta.vm (afterMarker cs cs (("Virtual machine:").data))
  let pCpuCores := stepNat meta.cpu_cores (cpu_cores_capture cs)
  (⟨meta.binary, meta.chain, pRewards.1, pVersion.1, pChainSpec.1, pNodeName.1, pRole.1,
    pDatabase.1, pLocalIdentity.1, pJsonrpc.1, pPrometheus.1, pHighest.1, pOs.1, pArch.1,
    pTarget.1, pCpu.1, pCpuCores.1, pMemory.1, pKernel.1, pDistro.1, pVm.1⟩,
   pVersion.2 || pChainSpec.2 || pNodeName.2 || pRole.2 || pDatabase.2 || pLocalIdentity.2
     || pJsonrpc.2 || pPrometheus.2 || pRewards.2 || pHighest.2 || pOs.2 || pArch.2
     || pTarget.2 || pCpu.2 || pMemory.2 || pKernel.2 || pDistro.2 || pVm.2 || pCpuCores.2)

/-! ## miner.rs : safe-mode automation -/

/-- RESONANCE_TROUBLESOME_RANGES from miner.rs: heavy blocks 13311..=13360. -/
def RESONANCE_TROUBLESOME_RANGES : List (Nat × Nat) := [(13311, 13360)]

/-- The troublesome-range table selected for a chain in the stderr reader. -/
def ranges_for_chain (chain : String) : List (Nat × Nat) :=
  if chain = "resonance" then RESONANCE_TROUBLESOME_RANGES else []

/-- The pending-toggle write performed by the stderr reader for one observed
importing-block height: some true when a safe-mode enable is scheduled,
some false when a disable is scheduled, none when the pending slot is left
alone.  Mirrors the in-range, past-all and approaching tests of miner.rs. -/
def safe_mode_decision (ranges : List (Nat × Nat)) (active_now : Bool) (cur_block : Nat) :
    Option Bool :=
  let in_range := ranges.any (fun r => decide (r.1 ≤ cur_block) && decide (cur_block ≤ r.2))
  let past_all := ranges.all (fun r => decide (r.2 < cur_block))
  let approaching := ranges.any (fun r => decide (r.1 ≤ cur_block))
  if !active_now && (in_range || approaching) then some true
  else if active_now && past_all then some false
  else none

/-- has_max_blocks_arg from miner.rs: is the safe-mode flag token present? -/
def has_max_blocks_arg (args : List String) : Bool :=
  args.any (fun a => a = ("--max-blocks-per-request"))

/-- The extra_args mutation of the enable branch of set_safe_mode:
append the flag and the value "1" when the flag is absent. -/
def enable_safe_mode_args (args : List String) : List String :=
  if has_max_blocks_arg args then args
  else args ++ [("--max-blocks-per-request"), ("1")]

/-- remove_max_blocks_arg from miner.rs: remove every occurrence of the flag
and, best effort, the token immediately after it, unless that token is the
literal double-dash separator. -/
def remove_max_blocks_arg (args : List String) : List String :=
  match args with
  | [] => []
  | a :: rest =>
    if a = ("--max-blocks-per-request") then
      match rest with
      | [] => []
      | b :: rest2 =>
        if b = ("--") then b :: remove_max_blocks_arg rest2
        else remove_max_blocks_arg rest2
    else a :: remove_max_blocks_arg rest

/-! ## miner.rs : the status poller loop -/

/-- MinerStatus from miner.rs. -/
structure MinerStatus where
  peers : Option Nat
  current_block : Option Nat
  highest_block : Option Nat
  is_syncing : Option Bool
deriving DecidableEq

/-- The observable outcome of one iteration of the spawn_status_task loop:
either the websocket connect to the local node failed, or a mid-iteration
read or write error tore the session down, or the iteration ran with the
data received that tick (head notification, health reply fields on a health
tick, bootnode head on a bootnode tick; absent values model both reply
timeouts and off-cadence ticks). -/
inductive PollInput
  | connectFail
  | readError
  | dataTick (headNum : Option Nat) (healthPeers : Option Nat)
      (healthSyncing : Option Bool) (bootHead : Option Nat)
deriving DecidableEq

/-- The update shape shared by the current-block, peers and is-syncing
blocks of the poller loop: when a value was received this tick and differs
from the stored one, store it and flag got_update. -/
def statusStep {α : Type} [DecidableEq α] (v r : Option α) : Option α × Bool :=
  match r with
  | some n => if v = some n then (v, false) else (some n, true)
  | none => (v, false)

/-- The highest-block update of the poller loop: fold the bootnode head in
with max, flagging got_update when the stored value changes. -/
def highestStep (v r : Option Nat) : Option Nat × Bool :=
  match r with
  | some n =>
    let new_h :=
      match v with
      | some x => some (max x n)
      | none => some n
    if new_h ≠ v then (new_h, true) else (v, false)
  | none => (v, false)

/-- One iteration of the spawn_status_task loop over the snapshot fields,
returning the new field values and the publication this iteration makes,
when any.  On connect failure the loop emits the unchanged snapshot and
retries; on a read error it reconnects without emitting; on a data tick it
folds the received values in, tracking got_update, and emits the snapshot
only when got_update is set. -/
def status_iteration (st : MinerStatus) (inp : PollInput) : MinerStatus × Option MinerStatus :=
  match inp with
  | .connectFail => (st, some st)
  | .readError => (st, none)
  | .dataTick head hp hs boot =>
    let pBest := statusStep st.current_block head
    let pPeers := statusStep st.peers hp
    let pSync := statusStep st.is_syncing hs
    let pHigh := highestStep st.highest_block boot
    let st2 : MinerStatus := ⟨pPeers.1, pBest.1, pHigh.1, pSync.1⟩
    (st2, if pBest.2 || pPeers.2 || pSync.2 || pHigh.2 then some st2 else none)

/-! ## miner.rs : the process supervisor (start and stop) -/

/-- MinerConfig from miner.rs. -/
structure MinerConfig where
  chain : String
  rewards_address : String
  binary_path : String
  extra_args : List String
  log_to_file : Bool
deriving DecidableEq

/-- The failure cases of start, in the order the source can hit them. -/
inductive StartError
  | accountLoad
  | heisenbergUnavailable
  | nodeKeyFailed
  | spawnFailed
deriving DecidableEq

/-- The external-world outcomes a start call can observe: the address in
the on-disk account file (none models a load failure), the resolved node
key path (none models ensure_node_key_for failing), and whether the OS
spawn of the child succeeds. -/
structure StartEnv where
  account : Option String
  nodeKey : Option String
  spawnOk : Bool
deriving DecidableEq

/-- The supervisor's shared mutable state: the running-process slot MINER
and LAST_CFG, plus bookkeeping that records which child pids were ever
spawned and which have had termination requested, the fresh-pid counter,
and the argument vector of the last spawn. -/
structure SupSt where
  miner : Option Nat
  lastCfg : Option MinerConfig
  spawned : List Nat
  termReq : List Nat
  nextPid : Nat
  spawnArgs : Option (List String)
deriving DecidableEq

/-- The state at program start: nothing running, no remembered config. -/
def initSt : SupSt :=
  { miner := none, lastCfg := none, spawned := [], termReq := [], nextPid := 0,
    spawnArgs := none }

/-- stop from miner.rs: take whatever is in the slot, and when it held a
child request its termination (SIGINT then kill, both results discarded).
The slot is cleared by the take itself, before any signal is sent, so the
state transition does not depend on the signal outcome sigOk. -/
def stopOp (s : SupSt) (sigOk : Bool) : SupSt :=
  match s.miner with
  | none => s
  | some p =>
    let _ := sigOk
    { s with miner := none, termReq := p :: s.termReq }

/-- The UI-chain to CLI-chain mapping of start (the heisenberg case is
rejected before this value is used). -/
def cli_chain_for (chain : String) : String :=
  if chain = ("resonance") then ("live_resonance") else chain

/-- start from miner.rs, in source order: stop any previous child, load the
account file, reject the heisenberg chain, ensure the node key, remember
the config in LAST_CFG, build the argument vector, spawn.  Returns the
call's result together with the state after the call. -/
def startOp (s : SupSt) (env : StartEnv) (cfg : MinerConfig) :
    Except StartError Unit × SupSt :=
  let s0 := stopOp s true
  match env.account with
  | none => (Except.error StartError.accountLoad, s0)
  | some addr =>
    if cfg.chain = ("heisenberg") then
      (Except.error StartError.heisenbergUnavailable, s0)
    else
      match env.nodeKey with
      | none => (Except.error StartError.nodeKeyFailed, s0)
      | some keyPath =>
        let s1 := { s0 with lastCfg := some cfg }
        let args := [("--chain"), cli_chain_for cfg.chain, ("--validator"),
          ("--node-key-file"), keyPath, ("--rewards-address"), addr] ++ cfg.extra_args
        if env.spawnOk then
          (Except.ok (),
           { s1 with
              miner := some s1.nextPid
              spawned := (s1.spawned ++ [s1.nextPid])
              nextPid := s1.nextPid + 1
              spawnArgs := some args })
        else (Except.error StartError.spawnFailed, s1)

/-- One externally triggered supervisor operation. -/
inductive SupOp
  | opStart (env : StartEnv) (cfg : MinerConfig)
  | opStop (sigOk : Bool)

/-- Apply one supervisor operation to the state. -/
def runOp (s : SupSt) : SupOp → SupSt
  | .opStart env cfg => (startOp s env cfg).2
  | .opStop k => stopOp s k

/-- Run a sequence of supervisor operations from a state. -/
def runOps (s : SupSt) : List SupOp → SupSt
  | [] => s
  | op :: rest => runOps (runOp s op) rest

/-- The pids that were spawned and never had termination requested. -/
def activePids (s : SupSt) : List Nat :=
  s.spawned.filter (fun p => !(s.termReq.contains p))

/-- The token immediately following the first occurrence of a flag in an
argument vector. -/
def value_after_flag (args : List String) (flag : String) : Option String :=
  match args with
  | [] => none
  | a :: rest => if a = flag then rest.head? else value_after_flag rest flag

/-- The supervisor invariant maintained by every start and stop transition:
every spawned child has either had termination requested or is the one in
the slot; spawned pids are below the fresh counter; and no pid is spawned
twice. -/
def SupInv (s : SupSt) : Prop :=
  (∀ p ∈ s.spawned, p ∈ s.termReq ∨ s.miner = some p) ∧
  (∀ p ∈ s.spawned, p < s.nextPid) ∧
  s.spawned.Nodup

/-- A concrete resonance configuration used to instantiate theorems. -/
def cfg_res : MinerConfig :=
  ⟨("resonance"), ("cfg-address"), ("/opt/quantus-node"), [], false⟩

/-- A concrete heisenberg configuration used to instantiate theorems. -/
def cfg_heis : MinerConfig :=
  ⟨("heisenberg"), ("cfg-address"), ("/opt/quantus-node"), [], false⟩

/-- An environment in which every start prerequisite and the spawn succeed. -/
def env_ok : StartEnv := ⟨some ("acct-address"), some ("/keys/secret_dilithium"), true⟩

/-- An environment in which the prerequisites succeed but the spawn fails. -/
def env_nospawn : StartEnv := ⟨some ("acct-address"), some ("/keys/secret_dilithium"), false⟩

/-- A supervisor state with one child running, used to instantiate theorems. -/
def st_running : SupSt :=
  { miner := some 0, lastCfg := none, spawned := [0], termReq := [], nextPid := 1,
    spawnArgs := none }

/-- A concrete fully populated status snapshot used to instantiate theorems. -/
def status_ex : MinerStatus := ⟨some 5, some 10, some 12, some true⟩

/-- A concrete metadata record with a populated role field. -/
def meta_ex : MinerMeta := { role := some ("authority") }

/-! ## Helper lemmas -/

theorem has_max_blocks_arg_iff (args : List String) :
    has_max_blocks_arg args = true ↔ ("--max-blocks-per-request") ∈ args := by
  simp [has_max_blocks_arg, List.any_eq_true]

/-- A token other than the flag passes through the disable mutation. -/
theorem remove_cons_ne (a : String) (l : List String)
    (ha : a ≠ ("--max-blocks-per-request")) :
    remove_max_blocks_arg (a :: l) = a :: remove_max_blocks_arg l := by
  cases l <;> simp [remove_max_blocks_arg, ha]

/-- Splitting lemma for the disable mutation: ahead of the first flag
occurrence nothing is touched; the flag is dropped, and the token after it
is dropped too unless it is the literal double-dash separator. -/
theorem remove_flag_value_split (xs : List String) (b : String) (ys : List String)
    (h : ¬ ("--max-blocks-per-request") ∈ xs) :
    remove_max_blocks_arg (xs ++ ("--max-blocks-per-request") :: b :: ys) =
      xs ++ (if b = ("--") then b :: remove_max_blocks_arg ys
             else remove_max_blocks_arg ys) := by
  induction xs with
  | nil => simp [remove_max_blocks_arg]
  | cons a t ih =>
    have ha : a ≠ ("--max-blocks-per-request") := fun hc => h (by simp [hc])
    have ht : ¬ ("--max-blocks-per-request") ∈ t := fun hc => h (by simp [hc])
    rw [List.cons_append, remove_cons_ne a _ ha, ih ht, List.cons_append]

/-! ## Claim C4 : safe-mode toggle conditions -/

/-- Claim C4: with safe mode inactive, a pending enable is recorded exactly
when the observed block is inside some configured troublesome range or at
or after some range's start; with safe mode active, a pending disable is
recorded exactly when the block is strictly past the end of every range. -/
theorem safe_mode_toggle_conditions (ranges : List (Nat × Nat)) (active : Bool) (cur : Nat) :
    (active = false →
      (safe_mode_decision ranges active cur = some true ↔
        ∃ r ∈ ranges, ((r.1 ≤ cur ∧ cur ≤ r.2) ∨ r.1 ≤ cur))) ∧
    (active = true →
      (safe_mode_decision ranges active cur = some false ↔ ∀ r ∈ ranges, r.2 < cur)) := by
  constructor
  · rintro rfl
    simp only [safe_mode_decision, Bool.not_false, Bool.true_and, Bool.false_and,
      if_false]
    have hite : ∀ b : Bool,
        ((if b = true then (some true : Option Bool) else
          if false = true then some false else none) = some true ↔ b = true) := by
      intro b
      cases b <;> simp
    rw [hite]
    simp only [Bool.or_eq_true, List.any_eq_true, Bool.and_eq_true, decide_eq_true_eq]
    constructor
    · rintro (⟨r, hr, h1, h2⟩ | ⟨r, hr, h1⟩)
      · exact ⟨r, hr, Or.inl ⟨h1, h2⟩⟩
      · exact ⟨r, hr, Or.inr h1⟩
    · rintro ⟨r, hr, (⟨h1, h2⟩ | h1)⟩
      · exact Or.inl ⟨r, hr, h1, h2⟩
      · exact Or.inr ⟨r, hr, h1⟩
  · rintro rfl
    simp [safe_mode_decision, List.all_eq_true]

/-- Witness for C4 at the configured resonance range: at block 13311 with
safe mode inactive an enable request is recorded. -/
theorem safe_mode_toggle_conditions_witness :
    safe_mode_decision RESONANCE_TROUBLESOME_RANGES false 13311 = some true := by
  refine ((safe_mode_toggle_conditions RESONANCE_TROUBLESOME_RANGES false 13311).1 rfl).mpr ?_
  exact ⟨(13311, 13360), by decide, by decide⟩

/-! ## Claim C5 : enable-then-disable round trip -/

/-- Counterexample for C5 as stated: when extraArgs already contains the
safe-mode flag, enabling is a no-op and disabling removes the pre-existing
flag and its value, so the round trip does not restore the original. -/
theorem safe_mode_roundtrip_cex :
    remove_max_blocks_arg (enable_safe_mode_args (["--max-blocks-per-request", "5"]))
      ≠ (["--max-blocks-per-request", "5"] : List String) := by decide

/-- Claim C5 as amended: for every extraArgs that does not already contain
the safe-mode flag, the enable mutation followed by the disable mutation
restores the original sequence exactly. -/
theorem safe_mode_roundtrip (args : List String)
    (h : ¬ ("--max-blocks-per-request") ∈ args) :
    remove_max_blocks_arg (enable_safe_mode_args args) = args := by
  have hb : has_max_blocks_arg args = false := by
    rw [← Bool.not_eq_true, has_max_blocks_arg_iff]
    exact h
  have h2 : remove_max_blocks_arg (args ++ [("--max-blocks-per-request"), ("1")]) = args := by
    have := remove_flag_value_split args ("1") [] h
    simpa [remove_max_blocks_arg] using this
  simpa [enable_safe_mode_args, hb] using h2

/-- Witness for C5 on a concrete flagless argument list. -/
theorem safe_mode_roundtrip_witness :
    remove_max_blocks_arg (enable_safe_mode_args (["--chain", "live_resonance"]))
      = (["--chain", "live_resonance"] : List String) :=
  safe_mode_roundtrip (["--chain", "live_resonance"]) (by decide)

/-! ## Claim C6 : what the disable mutation removes -/

/-- Counterexample for C6 as stated: the token following the flag is removed
even when it looks like another flag; only the literal double-dash separator
is kept.  Here the following token is the flag-like string double-dash
validator, and the claim predicts it survives, yet the result is empty. -/
theorem remove_flag_value_cex :
    remove_max_blocks_arg (["--max-blocks-per-request", "--validator"]) = ([] : List String)
      ∧ ¬ ("--validator") ∈
          remove_max_blocks_arg (["--max-blocks-per-request", "--validator"]) := by decide

/-- Claim C6 as amended: for extraArgs containing the flag, the disable
mutation removes the flag and the token immediately after it, except that a
following token equal to the literal double-dash separator is left in
place (tokens merely starting with a double dash are removed). -/
theorem remove_flag_and_value (xs : List String) (b : String) (ys : List String)
    (h : ¬ ("--max-blocks-per-request") ∈ xs) :
    remove_max_blocks_arg (xs ++ ("--max-blocks-per-request") :: b :: ys) =
      xs ++ (if b = ("--") then b :: remove_max_blocks_arg ys
             else remove_max_blocks_arg ys) :=
  remove_flag_value_split xs b ys h

/-- Witness for C6 on a concrete list: the flag and its value are removed,
the surrounding tokens survive. -/
theorem remove_flag_and_value_witness :
    remove_max_blocks_arg (["-d"] ++ ("--max-blocks-per-request") :: ("1") :: ["-x"]) =
      ["-d"] ++ (if ("1" : String) = ("--")
        then ("1") :: remove_max_blocks_arg ["-x"]
        else remove_max_blocks_arg ["-x"]) :=
  remove_flag_and_value (["-d"]) ("1") (["-x"]) (by decide)

/-! ## Supervisor invariant lemmas -/

theorem stopOp_miner (s : SupSt) (k : Bool) : (stopOp s k).miner = none := by
  cases hm : s.miner <;> simp [stopOp, hm]

theorem stopOp_fields (s : SupSt) (k : Bool) :
    (stopOp s k).lastCfg = s.lastCfg ∧ (stopOp s k).spawned = s.spawned ∧
      (stopOp s k).nextPid = s.nextPid ∧ s.termReq ⊆ (stopOp s k).termReq := by
  cases hm : s.miner <;>
    simp [stopOp, hm, List.subset_cons_of_subset, List.Subset.refl]

theorem stopOp_preserves_inv (s : SupSt) (k : Bool) (h : SupInv s) : SupInv (stopOp s k) := by
  obtain ⟨h1, h2, h3⟩ := h
  unfold stopOp
  cases hm : s.miner with
  | none => exact ⟨h1, h2, h3⟩
  | some p =>
    refine ⟨?_, h2, h3⟩
    intro q hq
    rcases h1 q hq with hin | hslot
    · exact Or.inl (List.mem_cons_of_mem _ hin)
    · rw [hm] at hslot
      obtain rfl : p = q := Option.some_injective _ hslot
      exact Or.inl (List.mem_cons_self _ _)

theorem startOp_preserves_inv (s : SupSt) (env : StartEnv) (cfg : MinerConfig)
    (h : SupInv s) : SupInv (startOp s env cfg).2 := by
  have h0 : SupInv (stopOp s true) := stopOp_preserves_inv s true h
  have hm0 : (stopOp s true).miner = none := stopOp_miner s true
  obtain ⟨h1, h2, h3⟩ := h0
  unfold startOp
  cases env.account with
  | none => exact ⟨h1, h2, h3⟩
  | some addr =>
    dsimp only
    by_cases hh : cfg.chain = ("heisenberg")
    · rw [if_pos hh]
      exact ⟨h1, h2, h3⟩
    · rw [if_neg hh]
      cases env.nodeKey with
      | none => exact ⟨h1, h2, h3⟩
      | some keyPath =>
        dsimp only
        by_cases hs : env.spawnOk = true
        · rw [if_pos hs]
          refine ⟨?_, ?_, ?_⟩
          · intro q hq
            simp only [List.mem_append, List.mem_singleton] at hq
            rcases hq with hq | hq
            · rcases h1 q hq with hin | hslot
              · exact Or.inl hin
              · rw [hm0] at hslot
                exact absurd hslot (by simp)
            · exact Or.inr (by simp [hq])
          · intro q hq
            simp only [List.mem_append, List.mem_singleton] at hq
            rcases hq with hq | hq
            · exact Nat.lt_succ_of_lt (h2 q hq)
            · simp [hq]
          · refine List.Nodup.append h3 (List.nodup_singleton _) ?_
            intro q hq hq2
            simp only [List.mem_singleton] at hq2
            exact absurd (h2 q hq) (by simp [hq2])
        · rw [if_neg hs]
          exact ⟨h1, h2, h3⟩

theorem runOps_preserves_inv (ops : List SupOp) (s : SupSt) (h : SupInv s) :
    SupInv (runOps s ops) := by
  induction ops generalizing s with
  | nil => exact h
  | cons op rest ih =>
    cases op with
    | opStart env cfg => exact ih _ (startOp_preserves_inv s env cfg h)
    | opStop k => exact ih _ (stopOp_preserves_inv s k h)

theorem initSt_inv : SupInv initSt := by
  refine ⟨?_, ?_, ?_⟩ <;> simp [initSt]

/-- A duplicate-free list whose members are all equal has length at most one. -/
theorem nodup_all_eq_length_le_one (l : List Nat) (m : Nat) (hn : l.Nodup)
    (h : ∀ p ∈ l, p = m) : l.length ≤ 1 := by
  match l with
  | [] => simp
  | [a] => simp
  | a :: b :: t =>
    exfalso
    have ha := h a (by simp)
    have hb := h b (by simp)
    have : a ≠ b := by
      intro he
      exact (List.nodup_cons.mp hn).1 (he ▸ List.mem_cons_self b t)
    exact this (ha.trans hb.symm)

theorem activePids_le_one_of_inv (s : SupSt) (h : SupInv s) :
    (activePids s).length ≤ 1 := by
  obtain ⟨h1, _, h3⟩ := h
  have hfilter : ∀ p ∈ activePids s, p ∈ s.spawned ∧ ¬ p ∈ s.termReq := by
    intro p hp
    unfold activePids at hp
    have hmf := List.mem_filter.mp hp
    refine ⟨hmf.1, ?_⟩
    intro hmem
    have hc := hmf.2
    rw [Bool.not_eq_true'] at hc
    have ht : s.termReq.contains p = true :=
      List.contains_iff_exists_mem_beq.mpr ⟨p, hmem, by simp⟩
    rw [ht] at hc
    cases hc
  cases hm : s.miner with
  | none =>
    have : activePids s = [] := by
      cases he : activePids s with
      | nil => rfl
      | cons p t =>
        exfalso
        have hp := hfilter p (he ▸ List.mem_cons_self p t)
        rcases h1 p hp.1 with hin | hslot
        · exact hp.2 hin
        · rw [hm] at hslot
          exact absurd hslot (by simp)
    simp [this]
  | some m =>
    have hnodup : (activePids s).Nodup := List.Nodup.filter _ h3
    refine nodup_all_eq_length_le_one _ m hnodup ?_
    intro p hp
    have hpp := hfilter p hp
    rcases h1 p hpp.1 with hin | hslot
    · exact absurd hin hpp.2
    · rw [hm] at hslot
      exact Option.some_injective _ hslot.symm

/-! ## Claim C1 : at most one active child, stop always clears the slot -/

/-- Claim C1: over every sequence of start and stop operations at most one
spawned child is ever active (spawned without a termination request); any
stop leaves the running slot empty whatever the signal outcome; and start
requests termination of any existing child before installing a new one. -/
theorem supervisor_single_process (ops : List SupOp) :
    (activePids (runOps initSt ops)).length ≤ 1 ∧
    (∀ s k, (stopOp s k).miner = none) ∧
    (∀ s env cfg p, s.miner = some p → p ∈ ((startOp s env cfg).2).termReq) := by
  refine ⟨?_, ?_, ?_⟩
  · exact activePids_le_one_of_inv _ (runOps_preserves_inv ops initSt initSt_inv)
  · exact fun s k => stopOp_miner s k
  · intro s env cfg p hp
    have hstop : p ∈ (stopOp s true).termReq := by
      unfold stopOp
      rw [hp]
      exact List.mem_cons_self p s.termReq
    have hsub : (stopOp s true).termReq ⊆ ((startOp s env cfg).2).termReq := by
      unfold startOp
      cases env.account with
      | none => exact List.Subset.refl _
      | some addr =>
        dsimp only
        by_cases hh : cfg.chain = ("heisenberg")
        · rw [if_pos hh]
          exact List.Subset.refl _
        · rw [if_neg hh]
          cases env.nodeKey with
          | none => exact List.Subset.refl _
          | some keyPath =>
            dsimp only
            by_cases hs : env.spawnOk = true
            · rw [if_pos hs]
              exact List.Subset.refl _
            · rw [if_neg hs]
              exact List.Subset.refl _
    exact hsub hstop

/-- Witness for C1: a start issued while pid 0 is running requests pid 0's
termination, and a concrete operation sequence keeps at most one child. -/
theorem supervisor_single_process_witness :
    (0 : Nat) ∈ ((startOp st_running env_ok cfg_res).2).termReq :=
  (supervisor_single_process []).2.2 st_running env_ok cfg_res 0 rfl

/-! ## Claim C3 : LastConfig versus the outcome of start -/

/-- Counterexample for C3 as stated: a start whose spawn fails returns an
error, yet LastConfig has already been overwritten with the supplied config
(the source stores it before attempting the spawn). -/
theorem start_lastcfg_cex :
    (startOp initSt env_nospawn cfg_res).1 = Except.error StartError.spawnFailed ∧
    (startOp initSt env_nospawn cfg_res).2.lastCfg ≠ initSt.lastCfg :=
  ⟨rfl, by decide⟩

/-- Claim C3 as amended: a successful start sets LastConfig to the supplied
config; a start failing at a prerequisite (account load, chain rejection,
node key) leaves LastConfig unchanged; but a start failing at the spawn has
already set LastConfig to the supplied config. -/
theorem start_lastcfg (s : SupSt) (env : StartEnv) (cfg : MinerConfig) :
    ((startOp s env cfg).1 = Except.ok () → (startOp s env cfg).2.lastCfg = some cfg) ∧
    ((startOp s env cfg).1 = Except.error StartError.spawnFailed →
      (startOp s env cfg).2.lastCfg = some cfg) ∧
    (∀ e, (startOp s env cfg).1 = Except.error e → e ≠ StartError.spawnFailed →
      (startOp s env cfg).2.lastCfg = s.lastCfg) := by
  have hcfg : (stopOp s true).lastCfg = s.lastCfg := (stopOp_fields s true).1
  unfold startOp
  cases env.account with
  | none =>
    exact ⟨fun h => Except.noConfusion h,
      fun h => by injection h with h2; exact StartError.noConfusion h2,
      fun e he hne => hcfg⟩
  | some addr =>
    dsimp only
    by_cases hh : cfg.chain = ("heisenberg")
    · rw [if_pos hh]
      exact ⟨fun h => Except.noConfusion h,
        fun h => by injection h with h2; exact StartError.noConfusion h2,
        fun e he hne => hcfg⟩
    · rw [if_neg hh]
      cases env.nodeKey with
      | none =>
        exact ⟨fun h => Except.noConfusion h,
          fun h => by injection h with h2; exact StartError.noConfusion h2,
          fun e he hne => hcfg⟩
      | some keyPath =>
        dsimp only
        by_cases hs : env.spawnOk = true
        · rw [if_pos hs]
          exact ⟨fun _ => rfl, fun h => Except.noConfusion h,
            fun e he hne => Except.noConfusion he⟩
        · rw [if_neg hs]
          refine ⟨fun h => Except.noConfusion h, fun _ => rfl, ?_⟩
          intro e he hne
          injection he with h2
          exact absurd h2.symm hne

/-- Witness for C3: a concrete successful start sets LastConfig. -/
theorem start_lastcfg_witness :
    (startOp initSt env_ok cfg_res).2.lastCfg = some cfg_res :=
  (start_lastcfg initSt env_ok cfg_res).1 rfl

/-! ## Claim C10 : heisenberg configs are rejected early -/

/-- Claim C10: for a config whose chain is heisenberg, start returns an
error, changes neither LastConfig nor the spawned list, leaves the slot
empty (the effect of the initial stop), and its outcome is insensitive to
the node-key and spawn components of the environment, which are never
consulted. -/
theorem heisenberg_start_rejected (s : SupSt) (env : StartEnv) (cfg : MinerConfig)
    (h : cfg.chain = ("heisenberg")) :
    (∃ e, (startOp s env cfg).1 = Except.error e) ∧
    (startOp s env cfg).2.lastCfg = s.lastCfg ∧
    (startOp s env cfg).2.miner = none ∧
    (startOp s env cfg).2.spawned = s.spawned ∧
    (∀ nk k, startOp s ⟨env.account, nk, k⟩ cfg = startOp s env cfg) := by
  have hf := stopOp_fields s true
  cases ha : env.account with
  | none =>
    refine ⟨⟨StartError.accountLoad, ?_⟩, ?_, ?_, ?_, ?_⟩
    · unfold startOp
      rw [ha]
    · unfold startOp
      rw [ha]
      exact hf.1
    · unfold startOp
      rw [ha]
      exact stopOp_miner s true
    · unfold startOp
      rw [ha]
      exact hf.2.1
    · intro nk k
      unfold startOp
      rw [ha]
  | some addr =>
    refine ⟨⟨StartError.heisenbergUnavailable, ?_⟩, ?_, ?_, ?_, ?_⟩
    · unfold startOp
      rw [ha]
      dsimp only
      rw [if_pos h]
    · unfold startOp
      rw [ha]
      dsimp only
      rw [if_pos h]
      exact hf.1
    · unfold startOp
      rw [ha]
      dsimp only
      rw [if_pos h]
      exact stopOp_miner s true
    · unfold startOp
      rw [ha]
      dsimp only
      rw [if_pos h]
      exact hf.2.1
    · intro nk k
      unfold startOp
      rw [ha]
      dsimp only
      rw [if_pos h, if_pos h]

/-- Witness for C10 at a concrete heisenberg config. -/
theorem heisenberg_start_rejected_witness :
    (startOp initSt env_ok cfg_heis).2.lastCfg = initSt.lastCfg :=
  (heisenberg_start_rejected initSt env_ok cfg_heis rfl).2.1

/-! ## Claim C2 : when the status poller publishes -/

/-- Counterexample for C2 as stated: when the websocket connect to the
local node fails, the loop publishes the last-known snapshot unchanged, so
two consecutive connect-failure iterations publish the identical snapshot
twice, including a publication equal to the previous one. -/
theorem status_republish_cex :
    (status_iteration status_ex PollInput.connectFail).2 = some status_ex ∧
    (status_iteration (status_iteration status_ex PollInput.connectFail).1
      PollInput.connectFail).2 = some status_ex := by decide

/-- Claim C2 as amended: on iterations where the local session is up, a
publication happens exactly when some snapshot field changed, the published
snapshot is the new one, and repeating the identical poll immediately
afterwards publishes nothing; but a connect-failure iteration republishes
the unchanged snapshot. -/
theorem statusStep_false_iff {α : Type} [DecidableEq α] (v r : Option α) :
    (statusStep v r).2 = false ↔ (statusStep v r).1 = v := by
  cases r with
  | none => simp [statusStep]
  | some n =>
    by_cases h : v = some n
    · simp [statusStep, h]
    · simp only [statusStep, if_neg h]
      constructor
      · intro hc
        cases hc
      · intro hc
        exact absurd hc.symm h

theorem statusStep_idem {α : Type} [DecidableEq α] (v r : Option α) :
    statusStep (statusStep v r).1 r = ((statusStep v r).1, false) := by
  cases r with
  | none => simp [statusStep]
  | some n =>
    by_cases h : v = some n
    · simp [statusStep, h]
    · simp [statusStep, if_neg h]

theorem highestStep_false_iff (v r : Option Nat) :
    (highestStep v r).2 = false ↔ (highestStep v r).1 = v := by
  cases r with
  | none => simp [highestStep]
  | some n =>
    simp only [highestStep]
    by_cases h : (match v with
        | some x => some (max x n)
        | none => some n) = v
    · rw [if_neg (by simpa using h)]
      simp [h]
    · rw [if_pos (by simpa using h)]
      simpa using h

theorem highestStep_idem (v r : Option Nat) :
    highestStep (highestStep v r).1 r = ((highestStep v r).1, false) := by
  cases r with
  | none => simp [highestStep]
  | some n =>
    cases v with
    | none =>
      simp [highestStep, Nat.max_self]
    | some x =>
      by_cases h : max x n = x
      · simp [highestStep, h]
      · have h2 : ¬ (some (max x n) = some x) := by simpa using h
        simp only [highestStep, ne_eq, h2, not_false_iff, if_pos, if_true]
        have h3 : max (max x n) n = max x n := by omega
        simp [h3]

/-- Claim C2 as amended: on iterations where the local session is up, a
publication happens exactly when some snapshot field changed, the published
snapshot is the new one, and repeating the identical poll immediately
afterwards publishes nothing; but a connect-failure iteration republishes
the unchanged snapshot. -/
theorem status_publish_on_change (st : MinerStatus) (head hp : Option Nat)
    (hs : Option Bool) (boot : Option Nat) :
    ((status_iteration st (PollInput.dataTick head hp hs boot)).2 = none ↔
      (status_iteration st (PollInput.dataTick head hp hs boot)).1 = st) ∧
    (∀ p, (status_iteration st (PollInput.dataTick head hp hs boot)).2 = some p →
      p = (status_iteration st (PollInput.dataTick head hp hs boot)).1 ∧ p ≠ st) ∧
    (status_iteration (status_iteration st (PollInput.dataTick head hp hs boot)).1
      (PollInput.dataTick head hp hs boot)).2 = none := by
  obtain ⟨pe, cur, hi, sy⟩ := st
  simp only [status_iteration]
  have hb := statusStep_false_iff cur head
  have hpe := statusStep_false_iff pe hp
  have hsy := statusStep_false_iff sy hs
  have hhi := highestStep_false_iff hi boot
  refine ⟨?_, ?_, ?_⟩
  · constructor
    · intro hn
      by_cases hflag : ((statusStep cur head).2 || (statusStep pe hp).2
          || (statusStep sy hs).2 || (highestStep hi boot).2) = true
      · rw [if_pos hflag] at hn
        cases hn
      · have hfalse : ((statusStep cur head).2 || (statusStep pe hp).2
            || (statusStep sy hs).2 || (highestStep hi boot).2) = false := by
          simpa using hflag
        simp only [Bool.or_eq_false_iff] at hfalse
        simp [MinerStatus.mk.injEq, hb.mp hfalse.1.1.1, hpe.mp hfalse.1.1.2,
          hsy.mp hfalse.1.2, hhi.mp hfalse.2]
    · intro he
      have h4 : (statusStep pe hp).1 = pe ∧ (statusStep cur head).1 = cur ∧
          (highestStep hi boot).1 = hi ∧ (statusStep sy hs).1 = sy := by
        simpa [MinerStatus.mk.injEq] using he
      have : ((statusStep cur head).2 || (statusStep pe hp).2 || (statusStep sy hs).2
          || (highestStep hi boot).2) = false := by
        simp [hb.mpr h4.2.1, hpe.mpr h4.1, hsy.mpr h4.2.2.2, hhi.mpr h4.2.2.1]
      rw [if_neg (by simp [this])]
  · intro p hp2
    by_cases hflag : ((statusStep cur head).2 || (statusStep pe hp).2 || (statusStep sy hs).2
        || (highestStep hi boot).2) = true
    · rw [if_pos hflag] at hp2
      have hpeq : p = (⟨(statusStep pe hp).1, (statusStep cur head).1,
          (highestStep hi boot).1, (statusStep sy hs).1⟩ : MinerStatus) :=
        (Option.some_injective _ hp2).symm
      refine ⟨hpeq, ?_⟩
      intro hpst
      rw [hpeq] at hpst
      have h4 : (statusStep pe hp).1 = pe ∧ (statusStep cur head).1 = cur ∧
          (highestStep hi boot).1 = hi ∧ (statusStep sy hs).1 = sy := by
        simpa [MinerStatus.mk.injEq] using hpst
      have : ((statusStep cur head).2 || (statusStep pe hp).2 || (statusStep sy hs).2
          || (highestStep hi boot).2) = false := by
        simp [hb.mpr h4.2.1, hpe.mpr h4.1, hsy.mpr h4.2.2.2, hhi.mpr h4.2.2.1]
      rw [this] at hflag
      cases hflag
    · rw [if_neg hflag] at hp2
      cases hp2
  · have i1 := statusStep_idem cur head
    have i2 := statusStep_idem pe hp
    have i3 := statusStep_idem sy hs
    have i4 := highestStep_idem hi boot
    simp only [status_iteration, i1, i2, i3, i4]
    rfl

/-- Witness for C2: a fresh head height is published once, and polling the
same data again publishes nothing. -/
theorem status_publish_on_change_witness :
    (status_iteration (status_iteration status_ex
      (PollInput.dataTick (some 11) none none none)).1
      (PollInput.dataTick (some 11) none none none)).2 = none :=
  (status_publish_on_change status_ex (some 11) none none none).2.2

/-! ## Claim C7 : parser rule order and examples -/

/-- Claim C7: the parser evaluates the spec's ordered rule table with first
match winning; the hashrate example parses to 42.5, the share example to
ShareAccepted, and a line matching no rule yields no event. -/
theorem parse_event_rule_order :
    (∀ line, parse_event line = firstMatch specRules line) ∧
    parse_event ("hashrate: 42.5 H/s") = some (MinerEvent.Hashrate ((85 : ℚ) / 2)) ∧
    parse_event ("Share accepted") = some MinerEvent.ShareAccepted ∧
    parse_event ("the weather is nice") = none := by
  refine ⟨?_, ?_, ?_, ?_⟩
  · intro line
    simp only [parse_event, firstMatch, specRules, connectivity_rule, hashrate_rule,
      share_accepted_rule, block_found_rule, error_rule]
    cases hc : (containsSub (lowerList line.data) (("connected to").data)
        || containsSub (lowerList line.data) (("syncing").data)) with
    | true => simp [hc]
    | false =>
      simp only [hc, Bool.false_eq_true, if_false]
      cases hh : parse_hashrate (lowerList line.data) with
      | some ev => simp [hh]
      | none =>
        simp only [hh]
        cases hsa : (containsSub (lowerList line.data) (("share accepted").data)
            || containsSub (lowerList line.data) (("accepted share").data)) with
        | true => simp [hsa]
        | false =>
          simp only [hsa, Bool.false_eq_true, if_false]
          cases hfb : (containsSub (lowerList line.data) (("found block").data)
              || containsSub (lowerList line.data) (("contributed block").data)
              || containsSub (lowerList line.data) (("mined block").data)) with
          | true => simp [hfb]
          | false =>
            simp only [hfb, Bool.false_eq_true, if_false]
            cases herr : (containsSub (lowerList line.data) (("error").data)
                || containsSub (lowerList line.data) (("failed").data)) with
            | true => simp [herr]
            | false => simp [herr]
  · rw [show ((85 : ℚ) / 2) = mkRat 85 2 by rw [Rat.mkRat_eq_div] ; norm_num]
    decide
  · decide
  · decide

/-! ## Claim C8 : the extractor never clears a populated field -/

theorem stepStr_isSome (d : Option String) (r : Option (List Char))
    (h : d.isSome = true) : (stepStr d r).1.isSome = true := by
  unfold stepStr
  cases r with
  | none => exact h
  | some v =>
    dsimp only
    by_cases h1 : v = []
    · rw [if_pos h1]
      exact h
    · rw [if_neg h1]
      by_cases h2 : d = some (String.mk v)
      · rw [if_pos h2]
        exact h
      · rw [if_neg h2]
        rfl

theorem stepNat_isSome (d : Option Nat) (r : Option Nat)
    (h : d.isSome = true) : (stepNat d r).1.isSome = true := by
  unfold stepNat
  cases r with
  | none => exact h
  | some n =>
    dsimp only
    by_cases h2 : d = some n
    · rw [if_pos h2]
      exact h
    · rw [if_neg h2]
      rfl

theorem stepNat_change (d : Option Nat) (r : Option Nat) :
    (stepNat d r).1 = d ∨ ∃ n, r = some n ∧ (stepNat d r).1 = some n := by
  unfold stepNat
  cases r with
  | none => exact Or.inl rfl
  | some n =>
    dsimp only
    by_cases h2 : d = some n
    · rw [if_pos h2]
      exact Or.inl rfl
    · rw [if_neg h2]
      exact Or.inr ⟨n, rfl, rfl⟩

/-- Claim C8: the extractor never clears a populated field of the metadata
record, and the two numeric fields change only to the successfully parsed
value of the corresponding capture. -/
theorem update_meta_never_clears (meta : MinerMeta) (line : String) :
    (meta.binary.isSome = true → (update_meta_from_line meta line).1.binary.isSome = true) ∧
    (meta.chain.isSome = true → (update_meta_from_line meta line).1.chain.isSome = true) ∧
    (meta.rewards_address.isSome = true →
      (update_meta_from_line meta line).1.rewards_address.isSome = true) ∧
    (meta.version.isSome = true → (update_meta_from_line meta line).1.version.isSome = true) ∧
    (meta.chain_spec.isSome = true →
      (update_meta_from_line meta line).1.chain_spec.isSome = true) ∧
    (meta.node_name.isSome = true →
      (update_meta_from_line meta line).1.node_name.isSome = true) ∧
    (meta.role.isSome = true → (update_meta_from_line meta line).1.role.isSome = true) ∧
    (meta.database.isSome = true →
      (update_meta_from_line meta line).1.database.isSome = true) ∧
    (meta.local_identity.isSome = true →
      (update_meta_from_line meta line).1.local_identity.isSome = true) ∧
    (meta.jsonrpc_addr.isSome = true →
      (update_meta_from_line meta line).1.jsonrpc_addr.isSome = true) ∧
    (meta.prometheus_addr.isSome = true →
      (update_meta_from_line meta line).1.prometheus_addr.isSome = true) ∧
    (meta.highest_known_block.isSome = true →
      (update_meta_from_line meta line).1.highest_known_block.isSome = true) ∧
    (meta.os.isSome = true → (update_meta_from_line meta line).1.os.isSome = true) ∧
    (meta.arch.isSome = true → (update_meta_from_line meta line).1.arch.isSome = true) ∧
    (meta.target.isSome = true → (update_meta_from_line meta line).1.target.isSome = true) ∧
    (meta.cpu.isSome = true → (update_meta_from_line meta line).1.cpu.isSome = true) ∧
    (meta.cpu_cores.isSome = true →
      (update_meta_from_line meta line).1.cpu_cores.isSome = true) ∧
    (meta.memory.isSome = true → (update_meta_from_line meta line).1.memory.isSome = true) ∧
    (meta.kernel.isSome = true → (update_meta_from_line meta line).1.kernel.isSome = true) ∧
    (meta.distro.isSome = true → (update_meta_from_line meta line).1.distro.isSome = true) ∧
    (meta.vm.isSome = true → (update_meta_from_line meta line).1.vm.isSome = true) ∧
    ((update_meta_from_line meta line).1.highest_known_block ≠ meta.highest_known_block →
      ∃ n, highest_block_capture (lowerList line.data) = some n ∧
        (update_meta_from_line meta line).1.highest_known_block = some n) ∧
    ((update_meta_from_line meta line).1.cpu_cores ≠ meta.cpu_cores →
      ∃ n, cpu_cores_capture line.data = some n ∧
        (update_meta_from_line meta line).1.cpu_cores = some n) := by
  refine ⟨fun h => h, fun h => h, fun h => stepStr_isSome _ _ h, fun h => stepStr_isSome _ _ h,
    fun h => stepStr_isSome _ _ h, fun h => stepStr_isSome _ _ h, fun h => stepStr_isSome _ _ h,
    fun h => stepStr_isSome _ _ h, fun h => stepStr_isSome _ _ h, fun h => stepStr_isSome _ _ h,
    fun h => stepStr_isSome _ _ h, fun h => stepNat_isSome _ _ h, fun h => stepStr_isSome _ _ h,
    fun h => stepStr_isSome _ _ h, fun h => stepStr_isSome _ _ h, fun h => stepStr_isSome _ _ h,
    fun h => stepNat_isSome _ _ h, fun h => stepStr_isSome _ _ h, fun h => stepStr_isSome _ _ h,
    fun h => stepStr_isSome _ _ h, fun h => stepStr_isSome _ _ h, ?_, ?_⟩
  · intro hne
    rcases stepNat_change meta.highest_known_block (highest_block_capture (lowerList line.data))
      with hsame | ⟨n, hr, hv⟩
    · exact absurd hsame hne
    · exact ⟨n, hr, hv⟩
  · intro hne
    rcases stepNat_change meta.cpu_cores (cpu_cores_capture line.data) with hsame | ⟨n, hr, hv⟩
    · exact absurd hsame hne
    · exact ⟨n, hr, hv⟩

/-- Witness for C8: a populated role survives an unrelated line, and a
non-numeric CPU-cores capture leaves the numeric field unchanged. -/
theorem update_meta_never_clears_witness :
    (update_meta_from_line meta_ex ("CPU cores: abc")).1.role.isSome = true :=
  (update_meta_never_clears meta_ex ("CPU cores: abc")).2.2.2.2.2.2.1 rfl

/-! ## Claim C9 : the rewards address comes from the account file -/

/-- Claim C9: a successful start builds the child's argument vector with
the account-file address as the value of the rewards-address flag; the
config's own rewardsAddress field appears in the vector only when it
coincides with the account-file address (side conditions rule out the
caller smuggling it in through extraArgs or the fixed tokens). -/
theorem rewards_address_from_account_file (s : SupSt) (env : StartEnv) (cfg : MinerConfig)
    (addr key : String)
    (ha : env.account = some addr) (hk : env.nodeKey = some key)
    (hok : (startOp s env cfg).1 = Except.ok ())
    (h1 : ¬ cfg.rewards_address ∈ cfg.extra_args)
    (h2 : ¬ cfg.rewards_address ∈ [("--chain"), cli_chain_for cfg.chain, ("--validator"),
      ("--node-key-file"), key, ("--rewards-address")])
    (hc : cli_chain_for cfg.chain ≠ ("--rewards-address"))
    (hkk : key ≠ ("--rewards-address")) :
    (startOp s env cfg).2.spawnArgs =
      some ([("--chain"), cli_chain_for cfg.chain, ("--validator"), ("--node-key-file"), key,
        ("--rewards-address"), addr] ++ cfg.extra_args) ∧
    value_after_flag ([("--chain"), cli_chain_for cfg.chain, ("--validator"),
      ("--node-key-file"), key, ("--rewards-address"), addr] ++ cfg.extra_args)
      ("--rewards-address") = some addr ∧
    (cfg.rewards_address ∈ ([("--chain"), cli_chain_for cfg.chain, ("--validator"),
      ("--node-key-file"), key, ("--rewards-address"), addr] ++ cfg.extra_args) ↔
      cfg.rewards_address = addr) := by
  simp only [List.mem_cons, List.not_mem_nil, not_or, or_false] at h2
  refine ⟨?_, ?_, ?_⟩
  · unfold startOp at hok ⊢
    rw [ha] at hok ⊢
    dsimp only at hok ⊢
    by_cases hh : cfg.chain = ("heisenberg")
    · rw [if_pos hh] at hok
      exact Except.noConfusion hok
    · rw [if_neg hh] at hok ⊢
      rw [hk] at hok ⊢
      dsimp only at hok ⊢
      by_cases hsp : env.spawnOk = true
      · rw [if_pos hsp]
      · rw [if_neg hsp] at hok
        exact Except.noConfusion hok
  · simp only [List.cons_append, List.nil_append, value_after_flag]
    rw [if_neg hc, if_neg hkk]
    simp
  · simp only [List.mem_append, List.mem_cons, List.not_mem_nil, or_false]
    constructor
    · rintro ((hx | hx | hx | hx | hx | hx | hx) | hx)
      · exact absurd hx h2.1
      · exact absurd hx h2.2.1
      · exact absurd hx h2.2.2.1
      · exact absurd hx h2.2.2.2.1
      · exact absurd hx h2.2.2.2.2.1
      · exact absurd hx h2.2.2.2.2.2
      · exact hx
      · exact absurd hx h1
    · intro heq
      exact Or.inl (by simp [heq])

/-- Witness for C9 at a concrete successful start: the spawn arguments use
the account-file address, not the config's rewardsAddress field. -/
theorem rewards_address_from_account_file_witness :
    (startOp initSt env_ok cfg_res).2.spawnArgs =
      some ([("--chain"), cli_chain_for cfg_res.chain, ("--validator"), ("--node-key-file"),
        ("/keys/secret_dilithium"), ("--rewards-address"), ("acct-address")]
        ++ cfg_res.extra_args) :=
  (rewards_address_from_account_file initSt env_ok cfg_res ("acct-address")
    ("/keys/secret_dilithium") rfl rfl rfl (by decide) (by decide) (by decide) (by decide)).1

end MinerTauri
